import Mathlib

/-!
Shallow embedding of the core of `src/projekt2/index.py` (a pygame app:
a movable actor, a position-history stack, and a "rewind" playback state
machine), together with proofs of the spec's testable properties.

Modelling conventions:
* Python floats become rationals (`ℚ`); `int(x)` is truncation toward zero.
* `pygame.Rect` only matters through its center: setting `rect.center = c`
  stores `left = c - w / 2` (C integer shift), `clamp_ip(Rect 0 0 W H)`
  adjusts `left` per axis, and reading `center` returns `left + w / 2`.
  This composite per-axis map is `clampAxis`.
* The deque `PathManager.stack` is a `List` (oldest first, push/pop at the
  tail), positions are pairs of rationals (pushed values are always the
  `int`-truncated actor position, which the integrality theorems make
  explicit).
* Pygame events and held keys are explicit inputs to the per-frame step.
-/

/-- Truncation toward zero, the behaviour of Python `int()` on a float:
the numerator T-divided by the (positive) denominator. -/
def truncQ (q : ℚ) : ℤ := q.num.tdiv q.den

/-- A position: a pair of (rational) coordinates, as stored in the history. -/
abbrev Pos : Type := ℚ × ℚ

/-- `PLAYER_SPEED = 200` px/s from the source. -/
def PLAYER_SPEED : ℚ := 200

/-- One axis of pygame's `rect.center = c; rect.clamp_ip(Rect(0,0,W,H));
read rect.center`: `rw` is the rect's size on this axis, `W` the window's.
Mirrors pygame's C clamp: a rect at least as large as the window is
centered, otherwise its left edge is clamped into `[0, W - rw]`. -/
def clampAxis (rw W : ℕ) (c : ℤ) : ℤ :=
  let l : ℤ := c - (rw / 2 : ℕ)
  let l' : ℤ :=
    if (W : ℤ) ≤ (rw : ℤ) then ((W / 2 : ℕ) : ℤ) - ((rw / 2 : ℕ) : ℤ)
    else if l < 0 then 0
    else if (W : ℤ) < l + (rw : ℤ) then (W : ℤ) - (rw : ℤ)
    else l
  l' + (rw / 2 : ℕ)

/-- `Player`: continuous position `(x, y)`; the rect is derived state
(always re-centered on `(int x, int y)` before it is read). -/
structure Player where
  x : ℚ
  y : ℚ
  deriving DecidableEq, Repr

namespace Player

/-- `Player.pos`: `(int(self.x), int(self.y))`, cast back into `Pos`. -/
def pos (p : Player) : Pos := ((truncQ p.x : ℚ), (truncQ p.y : ℚ))

/-- `Player.set_pos(x, y)`. -/
def set_pos (x y : ℚ) : Player := ⟨x, y⟩

/-- `Player.move(dx, dy)`. -/
def move (p : Player) (dx dy : ℚ) : Player := ⟨p.x + dx, p.y + dy⟩

/-- `Player.clamp_to_rect(w, h)`: clamp the rect (centered on the truncated
position, with image size `rw × rh`) into the window and read the center
back into `x, y`. -/
def clamp_to_rect (rw rh W H : ℕ) (p : Player) : Player :=
  ⟨(clampAxis rw W (truncQ p.x) : ℚ), (clampAxis rh H (truncQ p.y) : ℚ)⟩

end Player

namespace PathManager

/-- `PathManager.push(pos)`: append only if the stack is empty or the tail
differs from `pos`. -/
def push (s : List Pos) (p : Pos) : List Pos :=
  if s = [] ∨ s.getLast? ≠ some p then s ++ [p] else s

/-- `PathManager.pop()`: remove and return the tail, or `none`. -/
def pop (s : List Pos) : Option Pos × List Pos :=
  if s = [] then (none, s) else (s.getLast?, s.dropLast)

/-- `PathManager.peek()`. -/
def peek (s : List Pos) : Option Pos := s.getLast?

/-- `PathManager.is_empty()`. -/
def is_empty (s : List Pos) : Bool := s.length = 0

end PathManager

/-- The mutable core of `GameApp`: the actor, the live history stack, and
the playback fields. (`playback_delay_frames` is the constant 3; window
size and image size are passed to the functions that need them.) -/
structure AppState where
  player : Player
  stack : List Pos
  playing_back : Bool
  playback_stack : List Pos
  playback_frame_counter : ℕ
  deriving DecidableEq, Repr

/-- `self.playback_delay_frames = 3`. -/
def playback_delay_frames : ℕ := 3

/-- `GameApp.start_playback`: no-op if already playing or the history is
empty; otherwise copy the history into `playback_stack`, set
`playing_back`, reset the counter. -/
def start_playback (s : AppState) : AppState :=
  if s.playing_back then s
  else if PathManager.is_empty s.stack then s
  else { s with playback_stack := s.stack, playing_back := true,
                playback_frame_counter := 0 }

/-- `GameApp.update_playback`, returning the updated state together with
the teleport target applied this tick (if any).  Faithful to the source:
the emptiness check precedes the counter increment, the pop happens when
the incremented counter reaches `playback_delay_frames`, and the popped
tuple is always truthy so `set_pos` is always applied to it. -/
def update_playback (s : AppState) : AppState × Option Pos :=
  if s.playing_back = false then (s, none)
  else if s.playback_stack = [] then ({ s with playing_back := false }, none)
  else
    let c := s.playback_frame_counter + 1
    if playback_delay_frames ≤ c then
      match s.playback_stack.getLast? with
      | some target =>
          ({ s with playback_frame_counter := 0,
                    playback_stack := s.playback_stack.dropLast,
                    player := Player.set_pos target.1 target.2 }, some target)
      | none => (s, none)
    else ({ s with playback_frame_counter := c }, none)

/-- One playback tick, state part only (as called from the frame loop). -/
def tick (s : AppState) : AppState := (update_playback s).1

/-- `n` successive playback ticks. -/
def ticks : ℕ → AppState → AppState
  | 0, s => s
  | n + 1, s => ticks n (tick s)

/-- `n` successive playback ticks, also collecting every teleport target
emitted along the way, in order. -/
def runTicks : ℕ → AppState → AppState × List Pos
  | 0, s => (s, [])
  | n + 1, s =>
      let st := update_playback s
      let rest := runTicks n st.1
      (rest.1, st.2.toList ++ rest.2)

/-- The held movement keys sampled by `pygame.key.get_pressed()`. -/
structure Keys where
  left : Bool
  right : Bool
  up : Bool
  down : Bool
  deriving DecidableEq, Repr

/-- The one-shot events the core reacts to.  `keyR`/`keyG`/`keyB` only set
a color attribute that no core state reads, so they carry no data; a mouse
click carries its button and integer pixel coordinates; `other` stands for
any event the handler ignores. -/
inductive Event where
  | space : Event
  | keyC : Event
  | keyR : Event
  | keyG : Event
  | keyB : Event
  | mouseDown (button : ℕ) (mx my : ℤ) : Event
  | other : Event
  deriving DecidableEq, Repr

/-- The horizontal delta `move_dx` accumulated from the held arrow keys:
`-PLAYER_SPEED * dt` for LEFT, `+PLAYER_SPEED * dt` for RIGHT. -/
def moveDx (dt : ℚ) (keys : Keys) : ℚ :=
  (if keys.left then -(PLAYER_SPEED * dt) else 0) +
    (if keys.right then PLAYER_SPEED * dt else 0)

/-- The vertical delta `move_dy` accumulated from the held arrow keys. -/
def moveDy (dt : ℚ) (keys : Keys) : ℚ :=
  (if keys.up then -(PLAYER_SPEED * dt) else 0) +
    (if keys.down then PLAYER_SPEED * dt else 0)

/-- The keyboard-movement block at the top of `GameApp.handle_events`:
guarded by `not self.playing_back`, accumulates the deltas from the held
arrow keys, and when the delta is nonzero moves, clamps, and pushes. -/
def keyboardMove (rw rh W H : ℕ) (dt : ℚ) (keys : Keys) (s : AppState) :
    AppState :=
  if s.playing_back then s
  else if moveDx dt keys ≠ 0 ∨ moveDy dt keys ≠ 0 then
    let p := (s.player.move (moveDx dt keys) (moveDy dt keys)).clamp_to_rect
      rw rh W H
    { s with player := p, stack := PathManager.push s.stack p.pos }
  else s

/-- One iteration of the event loop in `GameApp.handle_events`.  SPACE
starts playback, C clears the path and re-pushes the current position, a
left mouse click teleports (set, clamp, push); R/G/B only change the
color, and everything else is ignored. -/
def handleEvent (rw rh W H : ℕ) (s : AppState) : Event → AppState
  | Event.space => start_playback s
  | Event.keyC =>
      { s with stack := PathManager.push ([] : List Pos) s.player.pos }
  | Event.mouseDown button mx my =>
      if button = 1 then
        let p := (Player.set_pos (mx : ℚ) (my : ℚ)).clamp_to_rect rw rh W H
        { s with player := p, stack := PathManager.push s.stack p.pos }
      else s
  | _ => s

/-- `GameApp.handle_events(dt)`: keyboard movement first, then the queued
one-shot events in order. -/
def handle_events (rw rh W H : ℕ) (dt : ℚ) (keys : Keys)
    (events : List Event) (s : AppState) : AppState :=
  events.foldl (handleEvent rw rh W H) (keyboardMove rw rh W H dt keys s)

/-- The per-frame inputs the frontend feeds the core. -/
structure Frame where
  dt : ℚ
  keys : Keys
  events : List Event
  deriving DecidableEq, Repr

/-- One iteration of `GameApp.run`'s loop restricted to core state:
`handle_events(dt)` followed by `update_playback()`. -/
def frame (rw rh W H : ℕ) (f : Frame) (s : AppState) : AppState :=
  tick (handle_events rw rh W H f.dt f.keys f.events s)

/-- A whole session: fold the frame step over a list of frame inputs. -/
def run (rw rh W H : ℕ) (fs : List Frame) (s : AppState) : AppState :=
  fs.foldl (fun s f => frame rw rh W H f s) s

/-- `GameApp.__init__`: the player starts at the window center
(`width // 2, height // 2`), the path is seeded with its position, and
playback is off. -/
def GameApp.init (W H : ℕ) : AppState :=
  let player : Player := ⟨((W / 2 : ℕ) : ℚ), ((H / 2 : ℕ) : ℚ)⟩
  { player := player,
    stack := PathManager.push ([] : List Pos) player.pos,
    playing_back := false,
    playback_stack := [],
    playback_frame_counter := 0 }

/-! ### Basic facts about truncation and the clamp -/

theorem truncQ_intCast (n : ℤ) : truncQ ((n : ℤ) : ℚ) = n := by
  simp [truncQ]

theorem truncQ_eq_floor {q : ℚ} (h : 0 ≤ q) : truncQ q = ⌊q⌋ := by
  rw [truncQ, Int.tdiv_eq_ediv (Rat.num_nonneg.mpr h) (by positivity),
    Rat.floor_def]

theorem truncQ_nonneg {q : ℚ} (h : 0 ≤ q) : 0 ≤ truncQ q := by
  rw [truncQ_eq_floor h]
  exact Int.floor_nonneg.mpr h

theorem truncQ_le_of_le {q : ℚ} {n : ℕ} (h0 : 0 ≤ q) (h : q ≤ (n : ℚ)) :
    truncQ q ≤ (n : ℤ) := by
  rw [truncQ_eq_floor h0]
  have : ⌊q⌋ ≤ ⌊(n : ℚ)⌋ := Int.floor_mono h
  simpa using this

theorem clampAxis_nonneg (rw W : ℕ) (c : ℤ) : 0 ≤ clampAxis rw W c := by
  unfold clampAxis
  dsimp only
  split_ifs <;> omega

theorem clampAxis_le (rw W : ℕ) (c : ℤ) : clampAxis rw W c ≤ (W : ℤ) := by
  unfold clampAxis
  dsimp only
  split_ifs <;> omega

/-! ### Facts about the history stack -/

namespace PathManager

theorem push_eq_append {s : List Pos} {p : Pos}
    (h : s = [] ∨ s.getLast? ≠ some p) : push s p = s ++ [p] := by
  simp [push, h]

theorem push_eq_self {s : List Pos} {p : Pos}
    (h : s.getLast? = some p) : push s p = s := by
  have hne : s ≠ [] := by
    intro hnil
    rw [hnil] at h
    simp at h
  simp [push, hne, h]

theorem mem_push {s : List Pos} {p q : Pos} (h : q ∈ push s p) :
    q ∈ s ∨ q = p := by
  unfold push at h
  split at h
  · rcases List.mem_append.mp h with h' | h'
    · exact Or.inl h'
    · exact Or.inr (List.mem_singleton.mp h')
  · exact Or.inl h

theorem push_ne_nil (s : List Pos) (p : Pos) : push s p ≠ [] := by
  unfold push
  split
  · simp
  · rename_i h
    rw [not_or] at h
    exact h.1

theorem chain'_push {s : List Pos} {p : Pos}
    (h : List.Chain' (fun a b => a ≠ b) s) :
    List.Chain' (fun a b => a ≠ b) (push s p) := by
  unfold push
  split
  · rename_i hc
    rw [List.chain'_append]
    refine ⟨h, List.chain'_singleton p, ?_⟩
    intro x hx y hy
    rw [List.head?_cons, Option.mem_def, Option.some.injEq] at hy
    subst hy
    rcases hc with hnil | hlast
    · rw [hnil] at hx
      simp at hx
    · intro hxy
      subst hxy
      exact hlast hx
  · exact h

theorem length_push_le (s : List Pos) (p : Pos) :
    (push s p).length ≤ s.length + 1 := by
  unfold push
  split <;> simp

theorem getLast?_push_fresh {s : List Pos} {p : Pos}
    (h : s = [] ∨ s.getLast? ≠ some p) : (push s p).getLast? = some p := by
  rw [push_eq_append h]
  simp

end PathManager

/-! ### Facts about playback ticks -/

theorem update_playback_stack (s : AppState) :
    (update_playback s).1.stack = s.stack := by
  unfold update_playback
  dsimp only
  split
  · rfl
  · split
    · rfl
    · split
      · split <;> rfl
      · rfl

theorem ticks_eq_runTicks (n : ℕ) (s : AppState) :
    ticks n s = (runTicks n s).1 := by
  induction n generalizing s with
  | zero => rfl
  | succ n ih => simp [ticks, runTicks, tick, ih]

theorem runTicks_add (m n : ℕ) (s : AppState) :
    runTicks (m + n) s =
      ((runTicks n (runTicks m s).1).1,
        (runTicks m s).2 ++ (runTicks n (runTicks m s).1).2) := by
  induction m generalizing s with
  | zero => simp [runTicks]
  | succ m ih =>
      have : m + 1 + n = (m + n) + 1 := by omega
      rw [this]
      simp only [runTicks]
      rw [ih]
      simp [runTicks, List.append_assoc]

theorem runTicks_three_pop (s : AppState) (l : List Pos) (a : Pos)
    (hp : s.playing_back = true) (hc : s.playback_frame_counter = 0)
    (hs : s.playback_stack = l ++ [a]) :
    runTicks 3 s =
      ({ s with playback_stack := l, playback_frame_counter := 0,
                player := Player.set_pos a.1 a.2 }, [a]) := by
  have h1 : update_playback s =
      ({ s with playback_frame_counter := 1 }, none) := by
    unfold update_playback
    simp [hp, hc, hs, playback_delay_frames]
  have h2 : update_playback { s with playback_frame_counter := 1 } =
      ({ s with playback_frame_counter := 2 }, none) := by
    unfold update_playback
    simp [hp, hs, playback_delay_frames]
  have h3 : update_playback { s with playback_frame_counter := 2 } =
      ({ s with playback_stack := l, playback_frame_counter := 0,
                player := Player.set_pos a.1 a.2 }, some a) := by
    unfold update_playback
    simp [hp, hs, playback_delay_frames]
  simp [runTicks, h1, h2, h3]

theorem runTicks_replay (l : List Pos) : ∀ (s : AppState),
    s.playing_back = true → s.playback_frame_counter = 0 →
    s.playback_stack = l →
    (runTicks (3 * l.length) s).1.playing_back = true ∧
    (runTicks (3 * l.length) s).1.playback_stack = [] ∧
    (runTicks (3 * l.length) s).1.playback_frame_counter = 0 ∧
    (runTicks (3 * l.length) s).1.stack = s.stack ∧
    (runTicks (3 * l.length) s).2 = l.reverse := by
  induction l using List.reverseRecOn with
  | nil =>
      intro s hp hc hs
      simp [runTicks, hp, hc, hs]
  | append_singleton l a ih =>
      intro s hp hc hs
      have hlen : 3 * (l ++ [a]).length = 3 + 3 * l.length := by
        simp [List.length_append]
        omega
      rw [hlen, runTicks_add]
      have h3 := runTicks_three_pop s l a hp hc hs
      rw [h3]
      have ihs := ih { s with playback_stack := l, playback_frame_counter := 0,
                              player := Player.set_pos a.1 a.2 } hp rfl rfl
      refine ⟨ihs.1, ihs.2.1, ihs.2.2.1, ?_, ?_⟩
      · rw [ihs.2.2.2.1]
      · rw [ihs.2.2.2.2]
        simp

theorem ticks_succ_back (n : ℕ) (s : AppState) :
    ticks (n + 1) s = tick (ticks n s) := by
  induction n generalizing s with
  | zero => rfl
  | succ n ih =>
      show ticks (n + 1) (tick s) = tick (ticks (n + 1) s)
      rw [ih (tick s)]
      rfl

theorem tick_deactivates {s : AppState} (hp : s.playing_back = true)
    (hs : s.playback_stack = []) :
    tick s = { s with playing_back := false } := by
  unfold tick update_playback
  simp [hp, hs]

theorem start_playback_fires {s : AppState} (h : s.playing_back = false)
    (hne : s.stack ≠ []) :
    start_playback s = { s with playback_stack := s.stack,
                                playing_back := true,
                                playback_frame_counter := 0 } := by
  unfold start_playback
  simp [h, PathManager.is_empty, List.length_eq_zero, hne]

/-! ### C1: playback termination -/

/-- Claim C1, as stated, is false on the code: after a start on a
1-entry history and exactly `1 * 3` ticks, `pending` is empty but
`playing_back` is still `true` (deactivation only happens on the next
tick, when `update_playback` sees the empty pending list). -/
theorem claim_C1_counterexample :
    (ticks 3 (start_playback
      { player := ⟨0, 0⟩, stack := [((1 : ℚ), (2 : ℚ))],
        playing_back := false, playback_stack := [],
        playback_frame_counter := 0 })).playing_back = true ∧
    (ticks 3 (start_playback
      { player := ⟨0, 0⟩, stack := [((1 : ℚ), (2 : ℚ))],
        playing_back := false, playback_stack := [],
        playback_frame_counter := 0 })).playback_stack = [] := by
  constructor <;> decide

/-- Claim C1 (amended): for a non-empty history of size N and cadence 3,
`start` followed by exactly `N * 3` ticks leaves `pending` empty but the
controller still active; the controller becomes inactive on the next
tick (`N * 3 + 1` in total), i.e. on the first tick after the emptying
pop rather than the instant of the pop. -/
theorem claim_C1 (s : AppState) (h : s.playing_back = false)
    (hne : s.stack ≠ []) :
    (ticks (3 * s.stack.length) (start_playback s)).playback_stack = [] ∧
    (ticks (3 * s.stack.length) (start_playback s)).playing_back = true ∧
    (ticks (3 * s.stack.length + 1) (start_playback s)).playing_back
      = false := by
  rw [start_playback_fires h hne]
  have R := runTicks_replay s.stack
    { s with playback_stack := s.stack, playing_back := true,
             playback_frame_counter := 0 } rfl rfl rfl
  rw [ticks_succ_back, ticks_eq_runTicks]
  refine ⟨R.2.1, R.1, ?_⟩
  rw [tick_deactivates R.1 R.2.1]

/-- Witness for C1 at a concrete 1-entry history. -/
theorem claim_C1_witness :
    (ticks
        (3 * (AppState.mk ⟨0, 0⟩ [((1 : ℚ), (2 : ℚ))] false [] 0).stack.length)
        (start_playback
          (AppState.mk ⟨0, 0⟩ [((1 : ℚ), (2 : ℚ))] false [] 0))).playback_stack
      = [] ∧
    (ticks
        (3 * (AppState.mk ⟨0, 0⟩ [((1 : ℚ), (2 : ℚ))] false [] 0).stack.length)
        (start_playback
          (AppState.mk ⟨0, 0⟩ [((1 : ℚ), (2 : ℚ))] false [] 0))).playing_back
      = true ∧
    (ticks
        (3 * (AppState.mk ⟨0, 0⟩ [((1 : ℚ), (2 : ℚ))] false [] 0).stack.length
          + 1)
        (start_playback
          (AppState.mk ⟨0, 0⟩ [((1 : ℚ), (2 : ℚ))] false [] 0))).playing_back
      = false :=
  claim_C1 _ rfl (by decide)

/-! ### C3: reverse-order replay -/

/-- Claim C3: during one replay the teleport targets emitted by the
successive ticks are exactly the snapshot's entries tail-to-head: the
history reversed. -/
theorem claim_C3 (s : AppState) (h : s.playing_back = false)
    (hne : s.stack ≠ []) :
    (runTicks (3 * s.stack.length) (start_playback s)).2
      = s.stack.reverse := by
  rw [start_playback_fires h hne]
  exact (runTicks_replay s.stack _ rfl rfl rfl).2.2.2.2

/-- Witness for C3 at a concrete 2-entry history. -/
theorem claim_C3_witness :
    (runTicks
        (3 * (AppState.mk ⟨0, 0⟩ [((1 : ℚ), (2 : ℚ)), ((3 : ℚ), (4 : ℚ))]
            false [] 0).stack.length)
        (start_playback
          (AppState.mk ⟨0, 0⟩ [((1 : ℚ), (2 : ℚ)), ((3 : ℚ), (4 : ℚ))]
            false [] 0))).2
      = (AppState.mk ⟨0, 0⟩ [((1 : ℚ), (2 : ℚ)), ((3 : ℚ), (4 : ℚ))]
          false [] 0).stack.reverse :=
  claim_C3 _ rfl (by decide)

/-! ### C2: input during replay -/

/-- Claim C2, as stated, is false on the code: with a replay active, a
left mouse click still teleports the actor and pushes the clicked
position onto the history (only the held-arrow-key block is guarded by
`playing_back`; the event loop is not). -/
theorem claim_C2_counterexample :
    (handle_events 10 10 800 600 0 (Keys.mk false false false false)
        [Event.mouseDown 1 100 100]
        (AppState.mk ⟨0, 0⟩ [((0 : ℚ), (0 : ℚ))] true [((0 : ℚ), (0 : ℚ))]
          0)).player.pos = ((100 : ℚ), (100 : ℚ)) ∧
    (handle_events 10 10 800 600 0 (Keys.mk false false false false)
        [Event.mouseDown 1 100 100]
        (AppState.mk ⟨0, 0⟩ [((0 : ℚ), (0 : ℚ))] true [((0 : ℚ), (0 : ℚ))]
          0)).stack
      = [((0 : ℚ), (0 : ℚ)), ((100 : ℚ), (100 : ℚ))] := by
  constructor <;> decide

/-- Claim C2 (amended): while a replay is active, keyboard-held
movement is disabled — the movement block changes nothing (no move, no
history push) — and SPACE cannot restart playback; one-shot mouse
teleports (and the C clear command) remain live during the replay. -/
theorem claim_C2 (rw rh W H : ℕ) (dt : ℚ) (keys : Keys) (s : AppState)
    (h : s.playing_back = true) :
    keyboardMove rw rh W H dt keys s = s ∧
    handleEvent rw rh W H s Event.space = s := by
  refine ⟨?_, ?_⟩
  · simp [keyboardMove, h]
  · simp [handleEvent, start_playback, h]

/-- Witness for C2 at a concrete active-replay state. -/
theorem claim_C2_witness :
    keyboardMove 10 10 800 600 1 (Keys.mk true false false false)
        (AppState.mk ⟨5, 5⟩ [((5 : ℚ), (5 : ℚ))] true [((5 : ℚ), (5 : ℚ))] 0)
      = AppState.mk ⟨5, 5⟩ [((5 : ℚ), (5 : ℚ))] true [((5 : ℚ), (5 : ℚ))] 0 ∧
    handleEvent 10 10 800 600
        (AppState.mk ⟨5, 5⟩ [((5 : ℚ), (5 : ℚ))] true [((5 : ℚ), (5 : ℚ))] 0)
        Event.space
      = AppState.mk ⟨5, 5⟩ [((5 : ℚ), (5 : ℚ))] true [((5 : ℚ), (5 : ℚ))]
          0 :=
  claim_C2 10 10 800 600 1 (Keys.mk true false false false) _ rfl

/-! ### C5: push deduplication -/

/-- Claim C5: `push` appends exactly when the history is empty or the
tail differs from the pushed position and is a no-op otherwise; it
preserves the no-adjacent-duplicates invariant; and a fresh position
pushed twice in a row grows the history by exactly 1, not 2. -/
theorem claim_C5 (s : List Pos) (p : Pos) :
    (s.getLast? = some p → PathManager.push s p = s) ∧
    ((s = [] ∨ s.getLast? ≠ some p) → PathManager.push s p = s ++ [p]) ∧
    (List.Chain' (fun a b => a ≠ b) s →
      List.Chain' (fun a b => a ≠ b) (PathManager.push s p)) ∧
    ((s = [] ∨ s.getLast? ≠ some p) →
      (PathManager.push (PathManager.push s p) p).length = s.length + 1) := by
  refine ⟨PathManager.push_eq_self, PathManager.push_eq_append,
    PathManager.chain'_push, ?_⟩
  intro h
  rw [PathManager.push_eq_append h,
    PathManager.push_eq_self (by simp), List.length_append]
  rfl

/-- Witness for C5 at a concrete fresh push. -/
theorem claim_C5_witness :
    (([((0 : ℚ), (0 : ℚ))] : List Pos) = [] ∨
      ([((0 : ℚ), (0 : ℚ))] : List Pos).getLast? ≠ some ((1 : ℚ), (1 : ℚ))) ∧
    (PathManager.push
        (PathManager.push [((0 : ℚ), (0 : ℚ))] ((1 : ℚ), (1 : ℚ)))
        ((1 : ℚ), (1 : ℚ))).length
      = ([((0 : ℚ), (0 : ℚ))] : List Pos).length + 1 :=
  ⟨by decide,
    (claim_C5 [((0 : ℚ), (0 : ℚ))] ((1 : ℚ), (1 : ℚ))).2.2.2 (by decide)⟩

/-! ### C6: replay does not touch the live history -/

/-- Claim C6: a playback tick never changes the live history (and never
pushes the teleports it emits onto it); `start_playback` leaves the
history untouched while copying it; and the playback step reads nothing
but the playback fields, so two states with the same playback fields —
however their live histories differ after start — tick to the same
playback fields and emit the same teleport target. -/
theorem claim_C6 (s t : AppState) :
    (update_playback s).1.stack = s.stack ∧
    (start_playback s).stack = s.stack ∧
    (s.playing_back = t.playing_back →
      s.playback_stack = t.playback_stack →
      s.playback_frame_counter = t.playback_frame_counter →
      (update_playback s).1.playing_back = (update_playback t).1.playing_back ∧
      (update_playback s).1.playback_stack
        = (update_playback t).1.playback_stack ∧
      (update_playback s).1.playback_frame_counter
        = (update_playback t).1.playback_frame_counter ∧
      (update_playback s).2 = (update_playback t).2) := by
  refine ⟨update_playback_stack s, ?_, ?_⟩
  · unfold start_playback
    split
    · rfl
    · split <;> rfl
  · intro hb hps hc
    unfold update_playback
    rw [hb, hps, hc]
    dsimp only
    split
    · exact ⟨hb, hps, hc, rfl⟩
    · split
      · exact ⟨rfl, rfl, rfl, rfl⟩
      · split
        · split
          · exact ⟨rfl, rfl, rfl, rfl⟩
          · exact ⟨hb, hps, hc, rfl⟩
        · exact ⟨rfl, rfl, rfl, rfl⟩

/-- Witness for C6: two states sharing playback fields but with
different live histories tick identically on the playback side. -/
theorem claim_C6_witness :
    (update_playback
        (AppState.mk ⟨0, 0⟩ [((1 : ℚ), (1 : ℚ))] true [((1 : ℚ), (1 : ℚ))]
          2)).1.stack
      = (AppState.mk ⟨0, 0⟩ [((1 : ℚ), (1 : ℚ))] true [((1 : ℚ), (1 : ℚ))]
          2).stack ∧
    (start_playback
        (AppState.mk ⟨0, 0⟩ [((1 : ℚ), (1 : ℚ))] true [((1 : ℚ), (1 : ℚ))]
          2)).stack
      = (AppState.mk ⟨0, 0⟩ [((1 : ℚ), (1 : ℚ))] true [((1 : ℚ), (1 : ℚ))]
          2).stack ∧
    ((update_playback
        (AppState.mk ⟨0, 0⟩ [((1 : ℚ), (1 : ℚ))] true [((1 : ℚ), (1 : ℚ))]
          2)).1.playing_back
      = (update_playback
          (AppState.mk ⟨9, 9⟩ [] true [((1 : ℚ), (1 : ℚ))] 2)).1.playing_back ∧
    (update_playback
        (AppState.mk ⟨0, 0⟩ [((1 : ℚ), (1 : ℚ))] true [((1 : ℚ), (1 : ℚ))]
          2)).1.playback_stack
      = (update_playback
          (AppState.mk ⟨9, 9⟩ [] true [((1 : ℚ), (1 : ℚ))]
            2)).1.playback_stack ∧
    (update_playback
        (AppState.mk ⟨0, 0⟩ [((1 : ℚ), (1 : ℚ))] true [((1 : ℚ), (1 : ℚ))]
          2)).1.playback_frame_counter
      = (update_playback
          (AppState.mk ⟨9, 9⟩ [] true [((1 : ℚ), (1 : ℚ))]
            2)).1.playback_frame_counter ∧
    (update_playback
        (AppState.mk ⟨0, 0⟩ [((1 : ℚ), (1 : ℚ))] true [((1 : ℚ), (1 : ℚ))]
          2)).2
      = (update_playback
          (AppState.mk ⟨9, 9⟩ [] true [((1 : ℚ), (1 : ℚ))] 2)).2) :=
  have h := claim_C6
    (AppState.mk ⟨0, 0⟩ [((1 : ℚ), (1 : ℚ))] true [((1 : ℚ), (1 : ℚ))] 2)
    (AppState.mk ⟨9, 9⟩ [] true [((1 : ℚ), (1 : ℚ))] 2)
  ⟨h.1, h.2.1, h.2.2 rfl rfl rfl⟩

/-! ### C7: start is a guarded no-op -/

/-- Claim C7: `start_playback` changes nothing when already active or
when the history is empty; otherwise it activates, copies the history
into `pending`, and resets the tick counter. -/
theorem claim_C7 (s : AppState) :
    (s.playing_back = true ∨ s.stack = [] → start_playback s = s) ∧
    (s.playing_back = false → s.stack ≠ [] →
      (start_playback s).playing_back = true ∧
      (start_playback s).playback_stack = s.stack ∧
      (start_playback s).playback_frame_counter = 0 ∧
      (start_playback s).player = s.player ∧
      (start_playback s).stack = s.stack) := by
  constructor
  · intro h
    unfold start_playback
    rcases h with h | h
    · simp [h]
    · simp [h, PathManager.is_empty]
  · intro h hne
    rw [start_playback_fires h hne]
    exact ⟨rfl, rfl, rfl, rfl, rfl⟩

/-- Witness for C7: a concrete inactive state with a non-empty history
starts, a concrete active state does not. -/
theorem claim_C7_witness :
    (start_playback
        (AppState.mk ⟨3, 4⟩ [((3 : ℚ), (4 : ℚ))] false [] 7)).playing_back
      = true ∧
    (start_playback
        (AppState.mk ⟨3, 4⟩ [((3 : ℚ), (4 : ℚ))] false [] 7)).playback_stack
      = (AppState.mk ⟨3, 4⟩ [((3 : ℚ), (4 : ℚ))] false [] 7).stack ∧
    (start_playback
        (AppState.mk ⟨3, 4⟩ [((3 : ℚ), (4 : ℚ))] false []
          7)).playback_frame_counter = 0 ∧
    (start_playback (AppState.mk ⟨3, 4⟩ [((3 : ℚ), (4 : ℚ))] false [] 7)).player
      = (AppState.mk ⟨3, 4⟩ [((3 : ℚ), (4 : ℚ))] false [] 7).player ∧
    (start_playback (AppState.mk ⟨3, 4⟩ [((3 : ℚ), (4 : ℚ))] false [] 7)).stack
      = (AppState.mk ⟨3, 4⟩ [((3 : ℚ), (4 : ℚ))] false [] 7).stack :=
  (claim_C7 (AppState.mk ⟨3, 4⟩ [((3 : ℚ), (4 : ℚ))] false [] 7)).2 rfl
    (by decide)

/-! ### Bounds and integrality invariants -/

theorem mem_of_getLast?_eq {l : List Pos} {a : Pos}
    (h : l.getLast? = some a) : a ∈ l := by
  have := List.dropLast_append_getLast? a (by simpa using h)
  rw [← this]
  simp

/-- A position within the window: both coordinates in
`[0, W] × [0, H]`. -/
def inBounds (W H : ℕ) (p : Pos) : Prop :=
  0 ≤ p.1 ∧ p.1 ≤ (W : ℚ) ∧ 0 ≤ p.2 ∧ p.2 ≤ (H : ℚ)

/-- The whole-state bounds invariant: the actor and every entry of the
live history and of the pending playback list are inside the window. -/
def stateInBounds (W H : ℕ) (s : AppState) : Prop :=
  inBounds W H (s.player.x, s.player.y) ∧
    (∀ p ∈ s.stack, inBounds W H p) ∧
    (∀ p ∈ s.playback_stack, inBounds W H p)

/-- A position with whole-pixel (integer) coordinates. -/
def isIntegral (p : Pos) : Prop := ∃ m n : ℤ, p = ((m : ℚ), (n : ℚ))

/-- The whole-state integrality invariant: every entry of the live
history and of the pending playback list has integer coordinates. -/
def stateIntegral (s : AppState) : Prop :=
  (∀ p ∈ s.stack, isIntegral p) ∧ (∀ p ∈ s.playback_stack, isIntegral p)

theorem clamp_to_rect_inBounds (rw rh W H : ℕ) (p : Player) :
    inBounds W H ((p.clamp_to_rect rw rh W H).x,
      (p.clamp_to_rect rw rh W H).y) := by
  dsimp only [inBounds, Player.clamp_to_rect]
  refine ⟨?_, ?_, ?_, ?_⟩
  · exact_mod_cast clampAxis_nonneg rw W (truncQ p.x)
  · exact_mod_cast clampAxis_le rw W (truncQ p.x)
  · exact_mod_cast clampAxis_nonneg rh H (truncQ p.y)
  · exact_mod_cast clampAxis_le rh H (truncQ p.y)

theorem pos_inBounds {W H : ℕ} {p : Player}
    (h : inBounds W H (p.x, p.y)) : inBounds W H p.pos := by
  dsimp only [inBounds, Player.pos] at h ⊢
  obtain ⟨h1, h2, h3, h4⟩ := h
  refine ⟨?_, ?_, ?_, ?_⟩
  · exact_mod_cast truncQ_nonneg h1
  · exact_mod_cast truncQ_le_of_le h1 h2
  · exact_mod_cast truncQ_nonneg h3
  · exact_mod_cast truncQ_le_of_le h3 h4

theorem pos_isIntegral (p : Player) : isIntegral p.pos :=
  ⟨truncQ p.x, truncQ p.y, rfl⟩

theorem keyboardMove_stateInBounds {rw rh W H : ℕ} {dt : ℚ} {keys : Keys}
    {s : AppState} (h : stateInBounds W H s) :
    stateInBounds W H (keyboardMove rw rh W H dt keys s) := by
  unfold keyboardMove
  split
  · exact h
  · split
    · refine ⟨clamp_to_rect_inBounds rw rh W H _, ?_, h.2.2⟩
      intro p hp
      rcases PathManager.mem_push hp with hp | hp
      · exact h.2.1 p hp
      · subst hp
        exact pos_inBounds (clamp_to_rect_inBounds rw rh W H _)
    · exact h

theorem handleEvent_stateInBounds {rw rh W H : ℕ} {s : AppState}
    (h : stateInBounds W H s) (e : Event) :
    stateInBounds W H (handleEvent rw rh W H s e) := by
  cases e with
  | space =>
      show stateInBounds W H (start_playback s)
      unfold start_playback
      split
      · exact h
      · split
        · exact h
        · exact ⟨h.1, h.2.1, h.2.1⟩
  | keyC =>
      show stateInBounds W H
        { s with stack := PathManager.push ([] : List Pos) s.player.pos }
      refine ⟨h.1, ?_, h.2.2⟩
      intro p hp
      have hp2 : p ∈ PathManager.push ([] : List Pos) s.player.pos := hp
      rcases PathManager.mem_push hp2 with hp3 | hp3
      · simp at hp3
      · subst hp3
        exact pos_inBounds h.1
  | mouseDown button mx my =>
      show stateInBounds W H (if button = 1 then _ else s)
      split
      · refine ⟨clamp_to_rect_inBounds rw rh W H _, ?_, h.2.2⟩
        intro p hp
        rcases PathManager.mem_push hp with hp | hp
        · exact h.2.1 p hp
        · subst hp
          exact pos_inBounds (clamp_to_rect_inBounds rw rh W H _)
      · exact h
  | keyR => exact h
  | keyG => exact h
  | keyB => exact h
  | other => exact h

theorem tick_stateInBounds {W H : ℕ} {s : AppState}
    (h : stateInBounds W H s) : stateInBounds W H (tick s) := by
  unfold tick update_playback
  dsimp only
  split
  · exact h
  · split
    · exact ⟨h.1, h.2.1, h.2.2⟩
    · split
      · split
        · rename_i target heq
          refine ⟨?_, h.2.1, ?_⟩
          · have ht : target ∈ s.playback_stack := mem_of_getLast?_eq heq
            have := h.2.2 target ht
            exact ⟨this.1, this.2.1, this.2.2.1, this.2.2.2⟩
          · intro p hp
            exact h.2.2 p (List.dropLast_subset _ hp)
        · exact h
      · exact ⟨h.1, h.2.1, h.2.2⟩

theorem foldl_handleEvent_stateInBounds {rw rh W H : ℕ} (es : List Event) :
    ∀ s : AppState, stateInBounds W H s →
      stateInBounds W H (es.foldl (handleEvent rw rh W H) s) := by
  induction es with
  | nil => exact fun s h => h
  | cons e es ih =>
      intro s h
      exact ih (handleEvent rw rh W H s e) (handleEvent_stateInBounds h e)

theorem frame_stateInBounds {rw rh W H : ℕ} {s : AppState}
    (h : stateInBounds W H s) (f : Frame) :
    stateInBounds W H (frame rw rh W H f s) := by
  unfold frame handle_events
  exact tick_stateInBounds (foldl_handleEvent_stateInBounds f.events _
    (keyboardMove_stateInBounds h))

theorem init_stateInBounds (W H : ℕ) :
    stateInBounds W H (GameApp.init W H) := by
  have hp : inBounds W H (((W / 2 : ℕ) : ℚ), ((H / 2 : ℕ) : ℚ)) := by
    dsimp only [inBounds]
    refine ⟨by positivity, ?_, by positivity, ?_⟩
    · exact_mod_cast Nat.div_le_self W 2
    · exact_mod_cast Nat.div_le_self H 2
  show stateInBounds W H
    { player := ⟨((W / 2 : ℕ) : ℚ), ((H / 2 : ℕ) : ℚ)⟩,
      stack := PathManager.push ([] : List Pos)
        (Player.pos ⟨((W / 2 : ℕ) : ℚ), ((H / 2 : ℕ) : ℚ)⟩),
      playing_back := false, playback_stack := [],
      playback_frame_counter := 0 }
  refine ⟨hp, ?_, ?_⟩
  · intro p hp'
    have hp2 : p ∈ PathManager.push ([] : List Pos)
        (Player.pos ⟨((W / 2 : ℕ) : ℚ), ((H / 2 : ℕ) : ℚ)⟩) := hp'
    rcases PathManager.mem_push hp2 with hp3 | hp3
    · simp at hp3
    · subst hp3
      exact pos_inBounds hp
  · intro p hp'
    simp at hp'

theorem run_stateInBounds (rw rh W H : ℕ) (fs : List Frame) :
    ∀ s : AppState, stateInBounds W H s →
      stateInBounds W H (run rw rh W H fs s) := by
  induction fs with
  | nil => exact fun s h => h
  | cons f fs ih =>
      intro s h
      exact ih (frame rw rh W H f s) (frame_stateInBounds h f)

/-! ### C4: the clamp invariant -/

/-- Claim C4: from the initial state, after any sequence of frames —
keyboard moves, mouse teleports and playback teleports included — the
actor's position lies in `[0, W] × [0, H]`, and so does every history
and pending-playback entry (each operation clamps into bounds or reuses
an already-clamped position; nothing is rejected or left outside). -/
theorem claim_C4 (rw rh W H : ℕ) (fs : List Frame) :
    stateInBounds W H (run rw rh W H fs (GameApp.init W H)) :=
  run_stateInBounds rw rh W H fs (GameApp.init W H) (init_stateInBounds W H)

/-- Witness for C4 on a concrete session: an out-of-window mouse
teleport followed by a playback start and a tick. -/
theorem claim_C4_witness :
    stateInBounds 800 600
      (run 10 10 800 600
        [Frame.mk 1 (Keys.mk false true false false)
          [Event.mouseDown 1 900 300, Event.space]]
        (GameApp.init 800 600)) :=
  claim_C4 10 10 800 600
    [Frame.mk 1 (Keys.mk false true false false)
      [Event.mouseDown 1 900 300, Event.space]]

/-! ### Integrality invariant for C9 -/

theorem keyboardMove_stateIntegral {rw rh W H : ℕ} {dt : ℚ} {keys : Keys}
    {s : AppState} (h : stateIntegral s) :
    stateIntegral (keyboardMove rw rh W H dt keys s) := by
  unfold keyboardMove
  split
  · exact h
  · split
    · refine ⟨?_, h.2⟩
      intro p hp
      rcases PathManager.mem_push hp with hp | hp
      · exact h.1 p hp
      · subst hp
        exact pos_isIntegral _
    · exact h

theorem handleEvent_stateIntegral {rw rh W H : ℕ} {s : AppState}
    (h : stateIntegral s) (e : Event) :
    stateIntegral (handleEvent rw rh W H s e) := by
  cases e with
  | space =>
      show stateIntegral (start_playback s)
      unfold start_playback
      split
      · exact h
      · split
        · exact h
        · exact ⟨h.1, h.1⟩
  | keyC =>
      show stateIntegral
        { s with stack := PathManager.push ([] : List Pos) s.player.pos }
      refine ⟨?_, h.2⟩
      intro p hp
      have hp2 : p ∈ PathManager.push ([] : List Pos) s.player.pos := hp
      rcases PathManager.mem_push hp2 with hp3 | hp3
      · simp at hp3
      · subst hp3
        exact pos_isIntegral _
  | mouseDown button mx my =>
      show stateIntegral (if button = 1 then _ else s)
      split
      · refine ⟨?_, h.2⟩
        intro p hp
        rcases PathManager.mem_push hp with hp | hp
        · exact h.1 p hp
        · subst hp
          exact pos_isIntegral _
      · exact h
  | keyR => exact h
  | keyG => exact h
  | keyB => exact h
  | other => exact h

theorem tick_stateIntegral {s : AppState} (h : stateIntegral s) :
    stateIntegral (tick s) := by
  unfold tick update_playback
  dsimp only
  split
  · exact h
  · split
    · exact ⟨h.1, h.2⟩
    · split
      · split
        · refine ⟨h.1, ?_⟩
          intro p hp
          exact h.2 p (List.dropLast_subset _ hp)
        · exact h
      · exact ⟨h.1, h.2⟩

theorem frame_stateIntegral {rw rh W H : ℕ} {s : AppState}
    (h : stateIntegral s) (f : Frame) :
    stateIntegral (frame rw rh W H f s) := by
  unfold frame handle_events
  apply tick_stateIntegral
  have hk : stateIntegral (keyboardMove rw rh W H f.dt f.keys s) :=
    keyboardMove_stateIntegral h
  generalize keyboardMove rw rh W H f.dt f.keys s = s0 at hk
  induction f.events generalizing s0 with
  | nil => exact hk
  | cons e es ih => exact ih _ (handleEvent_stateIntegral hk e)

theorem init_stateIntegral (W H : ℕ) : stateIntegral (GameApp.init W H) := by
  show stateIntegral
    { player := ⟨((W / 2 : ℕ) : ℚ), ((H / 2 : ℕ) : ℚ)⟩,
      stack := PathManager.push ([] : List Pos)
        (Player.pos ⟨((W / 2 : ℕ) : ℚ), ((H / 2 : ℕ) : ℚ)⟩),
      playing_back := false, playback_stack := [],
      playback_frame_counter := 0 }
  constructor
  · intro p hp
    have hp2 : p ∈ PathManager.push ([] : List Pos)
        (Player.pos ⟨((W / 2 : ℕ) : ℚ), ((H / 2 : ℕ) : ℚ)⟩) := hp
    rcases PathManager.mem_push hp2 with hp3 | hp3
    · simp at hp3
    · subst hp3
      exact pos_isIntegral _
  · intro p hp
    simp at hp

theorem run_stateIntegral (rw rh W H : ℕ) (fs : List Frame) :
    ∀ s : AppState, stateIntegral s → stateIntegral (run rw rh W H fs s) := by
  induction fs with
  | nil => exact fun s h => h
  | cons f fs ih =>
      intro s h
      exact ih (frame rw rh W H f s) (frame_stateIntegral h f)

/-! ### History non-emptiness for C8 -/

theorem start_playback_stack (s : AppState) :
    (start_playback s).stack = s.stack := by
  unfold start_playback
  split
  · rfl
  · split <;> rfl

theorem keyboardMove_stack_ne {rw rh W H : ℕ} {dt : ℚ} {keys : Keys}
    {s : AppState} (h : s.stack ≠ []) :
    (keyboardMove rw rh W H dt keys s).stack ≠ [] := by
  unfold keyboardMove
  split
  · exact h
  · split
    · exact PathManager.push_ne_nil _ _
    · exact h

theorem handleEvent_stack_ne {rw rh W H : ℕ} {s : AppState}
    (h : s.stack ≠ []) (e : Event) :
    (handleEvent rw rh W H s e).stack ≠ [] := by
  cases e with
  | space =>
      show (start_playback s).stack ≠ []
      rw [start_playback_stack]
      exact h
  | keyC =>
      show PathManager.push ([] : List Pos) s.player.pos ≠ []
      exact PathManager.push_ne_nil _ _
  | mouseDown button mx my =>
      show (if button = 1 then _ else s).stack ≠ []
      split
      · exact PathManager.push_ne_nil _ _
      · exact h
  | keyR => exact h
  | keyG => exact h
  | keyB => exact h
  | other => exact h

theorem frame_stack_ne {rw rh W H : ℕ} {s : AppState} (h : s.stack ≠ [])
    (f : Frame) : (frame rw rh W H f s).stack ≠ [] := by
  unfold frame
  rw [show tick (handle_events rw rh W H f.dt f.keys f.events s)
    = (update_playback (handle_events rw rh W H f.dt f.keys f.events s)).1
    from rfl, update_playback_stack]
  unfold handle_events
  have hk : (keyboardMove rw rh W H f.dt f.keys s).stack ≠ [] :=
    keyboardMove_stack_ne h
  generalize keyboardMove rw rh W H f.dt f.keys s = s0 at hk
  induction f.events generalizing s0 with
  | nil => exact hk
  | cons e es ih => exact ih _ (handleEvent_stack_ne hk e)

/-! ### C8: the history is never left empty -/

/-- Claim C8: the history is seeded with the actor's initial position at
creation; the C clear command leaves exactly the actor's current
position in it; and along any sequence of frames from the initial state
the history is never empty. -/
theorem claim_C8 (rw rh W H : ℕ) :
    (GameApp.init W H).stack = [(GameApp.init W H).player.pos] ∧
    (∀ s : AppState,
      (handleEvent rw rh W H s Event.keyC).stack = [s.player.pos]) ∧
    (∀ fs : List Frame, (run rw rh W H fs (GameApp.init W H)).stack ≠ []) := by
  refine ⟨?_, ?_, ?_⟩
  · show PathManager.push ([] : List Pos) _ = _
    rw [PathManager.push_eq_append (Or.inl rfl)]
    rfl
  · intro s
    show PathManager.push ([] : List Pos) s.player.pos = _
    rw [PathManager.push_eq_append (Or.inl rfl)]
    rfl
  · intro fs
    have : ∀ t : AppState, t.stack ≠ [] →
        (run rw rh W H fs t).stack ≠ [] := by
      induction fs with
      | nil => exact fun t h => h
      | cons f fs ih =>
          intro t h
          exact ih (frame rw rh W H f t) (frame_stack_ne h f)
    apply this
    show PathManager.push ([] : List Pos) _ ≠ []
    exact PathManager.push_ne_nil _ _

/-- Witness for C8 on a concrete frame sequence with a clear command. -/
theorem claim_C8_witness :
    (run 10 10 800 600
        [Frame.mk 1 (Keys.mk false false false false) [Event.keyC]]
        (GameApp.init 800 600)).stack ≠ [] :=
  (claim_C8 10 10 800 600).2.2
    [Frame.mk 1 (Keys.mk false false false false) [Event.keyC]]

/-! ### C9: whole-pixel history entries, sub-pixel moves push nothing -/

theorem update_playback_emit_mem {s : AppState} {t : Pos}
    (h : (update_playback s).2 = some t) : t ∈ s.playback_stack := by
  unfold update_playback at h
  dsimp only at h
  split at h
  · simp at h
  · split at h
    · simp at h
    · split at h
      · split at h
        · rename_i target heq
          simp only [Option.some.injEq] at h
          subst h
          exact mem_of_getLast?_eq heq
        · simp at h
      · simp at h

/-- Claim C9: every entry of the live history and of the pending
playback list along any run is the actor's position truncated to
integer coordinates, so every replay teleport target (always an element
of the pending list) has whole-pixel coordinates; and a held-key move
whose truncated clamped result equals the current tail pushes nothing —
even when the deltas are nonzero and the continuous position moved. -/
theorem claim_C9 (rw rh W H : ℕ) :
    (∀ fs : List Frame, ∀ p : Pos,
      p ∈ (run rw rh W H fs (GameApp.init W H)).stack ∨
        p ∈ (run rw rh W H fs (GameApp.init W H)).playback_stack →
      isIntegral p) ∧
    (∀ (s : AppState) (t : Pos),
      (update_playback s).2 = some t → t ∈ s.playback_stack) ∧
    (∀ (dt : ℚ) (keys : Keys) (s : AppState), s.playing_back = false →
      s.stack.getLast? = some (((s.player.move (moveDx dt keys)
          (moveDy dt keys)).clamp_to_rect rw rh W H).pos) →
      (keyboardMove rw rh W H dt keys s).stack = s.stack) := by
  refine ⟨?_, fun s t h => update_playback_emit_mem h, ?_⟩
  · intro fs p hp
    have h := run_stateIntegral rw rh W H fs (GameApp.init W H)
      (init_stateIntegral W H)
    rcases hp with hp | hp
    · exact h.1 p hp
    · exact h.2 p hp
  · intro dt keys s hpb htail
    unfold keyboardMove
    rw [hpb, if_neg (by simp)]
    split
    · show PathManager.push s.stack (((s.player.move (moveDx dt keys)
        (moveDy dt keys)).clamp_to_rect rw rh W H).pos) = s.stack
      exact PathManager.push_eq_self htail
    · rfl

/-- Witness for C9: a sub-pixel rightward move (dt = 1/1000 s, so
dx = 1/5 px) from (100, 100) truncates back onto the tail and pushes
nothing. -/
theorem claim_C9_witness :
    (keyboardMove 10 10 800 600 (1/1000) (Keys.mk false true false false)
        (AppState.mk ⟨100, 100⟩ [((100 : ℚ), (100 : ℚ))] false [] 0)).stack
      = (AppState.mk ⟨100, 100⟩ [((100 : ℚ), (100 : ℚ))] false [] 0).stack :=
  (claim_C9 10 10 800 600).2.2 (1/1000) (Keys.mk false true false false)
    (AppState.mk ⟨100, 100⟩ [((100 : ℚ), (100 : ℚ))] false [] 0) rfl
    (by
      have hdx : moveDx (1/1000) (Keys.mk false true false false)
          = 1/5 := by
        norm_num [moveDx, PLAYER_SPEED]
      have hdy : moveDy (1/1000) (Keys.mk false true false false) = 0 := by
        norm_num [moveDy, PLAYER_SPEED]
      rw [hdx, hdy]
      have hx : truncQ ((100 : ℚ) + 1/5) = 100 := by
        norm_num [truncQ]
        decide
      have hy : truncQ ((100 : ℚ) + 0) = 100 := by
        norm_num [truncQ]
      simp only [Player.move, Player.clamp_to_rect, Player.pos]
      rw [hx, hy]
      norm_num [clampAxis, truncQ])

/-! ### C10: the core step is deterministic -/

/-- Claim C10: the per-frame core step is a pure function of the core
state and the supplied inputs (dt, held keys, events): two runs from
equal core states fed the same per-frame inputs stay equal, both for a
single frame (input handling then playback tick) and for any frame
sequence; the embedding exposes no other input, randomness, or
real-time dependence. -/
theorem claim_C10 (rw rh W H : ℕ) (s t : AppState) (h : s = t) :
    (∀ f : Frame, frame rw rh W H f s = frame rw rh W H f t) ∧
    (∀ fs : List Frame, run rw rh W H fs s = run rw rh W H fs t) := by
  subst h
  exact ⟨fun _ => rfl, fun _ => rfl⟩

/-- Witness for C10 at a concrete state and frame. -/
theorem claim_C10_witness :
    frame 10 10 800 600
        (Frame.mk 1 (Keys.mk false true false false)
          [Event.mouseDown 1 50 60, Event.space])
        (GameApp.init 800 600)
      = frame 10 10 800 600
          (Frame.mk 1 (Keys.mk false true false false)
            [Event.mouseDown 1 50 60, Event.space])
          (GameApp.init 800 600) :=
  (claim_C10 10 10 800 600 (GameApp.init 800 600) (GameApp.init 800 600)
      rfl).1
    (Frame.mk 1 (Keys.mk false true false false)
      [Event.mouseDown 1 50 60, Event.space])
